import Mathlib

/-!
Shallow embedding of the LLM-GUI response-parsing and graph-expansion engine.

The definitions below are translated from `src/lib/llm.ts` (tagged-response
parser, mock generation client) and from the sessions store
(`createRoot`, `repromptRootWithClarify`, `expandAnswerPath`,
`pushNodesAwayFromExpansion`, `LAYOUT`).  Coordinates are modelled as exact
rationals (the JavaScript arithmetic involved is integer sums plus one
halving, all exact in ℚ).  Strings are processed as character lists; the
regex scans of the source are embedded as explicit leftmost-match searches.
-/

namespace LlmGui

/-- JS whitespace characters relevant to `String.prototype.trim` for the
    inputs handled here (ASCII whitespace). -/
def isWs (c : Char) : Bool :=
  c = ' ' || c = '\t' || c = '\n' || c = '\r' || c = '\x0b' || c = '\x0c'

/-- `String.prototype.trim` on a character list. -/
def trimL (s : List Char) : List Char :=
  ((s.dropWhile isWs).reverse.dropWhile isWs).reverse

/-- Case-insensitive match of `pat` as a prefix of `text`; returns the
    remainder after the pattern (regex `i` flag on literal patterns). -/
def matchCI : List Char → List Char → Option (List Char)
  | [], rest => some rest
  | _ :: _, [] => none
  | p :: ps, c :: cs => if p.toLower = c.toLower then matchCI ps cs else none

/-- Leftmost case-insensitive occurrence of `pat` in `text`:
    returns `(before, after)` where `text = before ++ matched ++ after`. -/
def splitFirstCI (pat : List Char) : List Char → Option (List Char × List Char)
  | [] => match matchCI pat [] with
          | some rest => some ([], rest)
          | none => none
  | c :: cs =>
      match matchCI pat (c :: cs) with
      | some rest => some ([], rest)
      | none =>
          match splitFirstCI pat cs with
          | some (pre, rest) => some (c :: pre, rest)
          | none => none

/-- Opening tag characters `<tag>`. -/
def openTag (tag : String) : List Char := '<' :: tag.toList ++ ['>']

/-- Closing tag characters `</tag>`. -/
def closeTag (tag : String) : List Char := '<' :: '/' :: tag.toList ++ ['>']

/-- The `regex.exec` while loop, with explicit fuel.  Each successful
    iteration consumes at least the opening and closing tag (so at least one
    character); fuel equal to the text length is never exhausted. -/
def extractTagGo (opn cls : List Char) : Nat → List Char → List (List Char)
  | 0, _ => []
  | fuel + 1, text =>
      match splitFirstCI opn text with
      | none => []
      | some (_, rest1) =>
          match splitFirstCI cls rest1 with
          | none => []
          | some (body, rest2) => body :: extractTagGo opn cls fuel rest2

/-- All non-overlapping matches of `/<tag>([\s\S]*?)<\/tag>/gi`: repeatedly
    take the leftmost `<tag>`, then the body up to the first following
    `</tag>`.  Returns the list of match bodies. -/
def extractTag (tag : String) (text : List Char) : List (List Char) :=
  extractTagGo (openTag tag) (closeTag tag) text.length text

/-- First match of `/<tag>([\s\S]*?)<\/tag>/i` (non-global `exec`):
    the body of the leftmost complete `<tag>…</tag>` pair, if any. -/
def execTagCI (tag : String) (text : List Char) : Option (List Char) :=
  match splitFirstCI (openTag tag) text with
  | none => none
  | some (_, rest1) =>
      match splitFirstCI (closeTag tag) rest1 with
      | none => none
      | some (body, _) => some body

/-- Split at the first `'>'`: `(before, after)`. -/
def splitAtGt : List Char → Option (List Char × List Char)
  | [] => none
  | c :: cs =>
      if c = '>' then some ([], cs)
      else match splitAtGt cs with
           | some (a, b) => some (c :: a, b)
           | none => none

/-- The scan of `replace(/<[^>]+>/g, '')` with explicit fuel; every
    iteration consumes at least one character, so fuel equal to the text
    length is never exhausted. -/
def stripTagsGo : Nat → List Char → List Char
  | 0, l => l
  | fuel + 1, l =>
      match l with
      | [] => []
      | c :: cs =>
          if c = '<' then
            match splitAtGt cs with
            | some (inner, rest) =>
                if inner = [] then c :: stripTagsGo fuel cs else stripTagsGo fuel rest
            | none => c :: stripTagsGo fuel cs
          else c :: stripTagsGo fuel cs

/-- `raw.replace(/<[^>]+>/g, '')`: remove every `<…>` run with at least one
    non-`>` character inside, scanning left to right. -/
def stripTags (l : List Char) : List Char :=
  stripTagsGo l.length l

/-! ### Tagged-response parser (src/lib/llm.ts) -/

/-- Parsed representation of one model-suggested item (`Branch` in
    `src/lib/types.ts`, with the optional `content` carried by the parser). -/
structure Branch where
  id : String
  label : String
  content : Option String := none
deriving DecidableEq, Repr

/-- A match body after label/content extraction, before ids are assigned. -/
structure PreBranch where
  label : List Char
  content : Option (List Char) := none
deriving DecidableEq, Repr

/-- JavaScript `a || b` on strings (empty string is falsy). -/
def jsOr (a b : String) : String := if a = "" then b else a

/-- JavaScript `a || b` on character lists. -/
def jsOrL (a b : List Char) : List Char := if a = [] then b else a

/-- `titleMatch?.[1]?.trim() ?? raw.replace(/<[^>]+>/g, '').trim()`. -/
def titleCore (raw : List Char) : List Char :=
  match execTagCI "title" raw with
  | some t => trimL t
  | none => trimL (stripTags raw)

/-- The label assigned to a `<step>`/`<answer>` body `raw` (already trimmed):
    `(titleMatch?.[1]?.trim() ?? raw.replace(/<[^>]+>/g, '').trim()) || raw`. -/
def labelOf (raw : List Char) : List Char :=
  jsOrL (titleCore raw) raw

/-- `contentMatch?.[1]?.trim() ?? subtitleMatch?.[1]?.trim()`. -/
def contentOf (raw : List Char) : Option (List Char) :=
  match execTagCI "content" raw with
  | some c => some (trimL c)
  | none => (execTagCI "subtitle" raw).map trimL

/-- The while-loop body of `parseTagBranches`: extract all `<tag>` bodies,
    trim, skip blanks, compute label and content. -/
def collectBodies (tag : String) (text : List Char) : List PreBranch :=
  (extractTag tag text).filterMap (fun body =>
    let raw := trimL body
    if raw = [] then none
    else some { label := labelOf raw, content := contentOf raw })

/-- The `results.filter` with a `seen` Set: keep the first occurrence of each
    label, drop later duplicates. -/
def dedupByLabel (seen : List (List Char)) : List PreBranch → List PreBranch
  | [] => []
  | r :: rs =>
      if r.label ∈ seen then dedupByLabel seen rs
      else r :: dedupByLabel (r.label :: seen) rs

/-- `unique.map((r, i) => ({ id: `idPrefix-(i+1)`, … }))`, with `start` the
    index offset (`0` at the call site). -/
def assignIds (idPrefix : String) (start : Nat) : List PreBranch → List Branch
  | [] => []
  | r :: rs =>
      { id := idPrefix ++ "-" ++ toString (start + 1),
        label := String.mk r.label,
        content := r.content.map String.mk } :: assignIds idPrefix (start + 1) rs

/-- `parseTagBranches(text, nid, tag, idPrefix)` from src/lib/llm.ts. -/
def parseTagBranches (text : String) (tag : String) (idPrefix : String) : List Branch :=
  assignIds idPrefix 0 ((dedupByLabel [] (collectBodies tag text.toList)).take 6)

/-- `parseStepsFromText`. -/
def parseStepsFromText (text nid : String) : List Branch :=
  parseTagBranches text "step" (nid ++ "-step")

/-- `parseFinalAnswersFromText`. -/
def parseFinalAnswersFromText (text nid : String) : List Branch :=
  parseTagBranches text "answer" (nid ++ "-ans")

/-- `parseBranchesFromText`: legacy `<answer>`-as-steps fallback. -/
def parseBranchesFromText (text nid : String) : List Branch :=
  let fromStep := parseStepsFromText text nid
  if fromStep.length > 0 then fromStep
  else parseTagBranches text "answer" (nid ++ "-gen")

/-- The nonblank trimmed `<clarify>` bodies, in extraction order. -/
def clarifyLabels (text : String) : List (List Char) :=
  (extractTag "clarify" text.toList).filterMap (fun body =>
    let raw := trimL body
    if raw = [] then none else some raw)

/-- `Array.from(new Set(labels))`: first occurrence kept, insertion order. -/
def dedupLabels (seen : List (List Char)) : List (List Char) → List (List Char)
  | [] => []
  | l :: ls =>
      if l ∈ seen then dedupLabels seen ls
      else l :: dedupLabels (l :: seen) ls

/-- `unique.map((label, i) => ({ id: `nid-clar-(i+1)`, label }))`. -/
def assignClarIds (nid : String) (start : Nat) : List (List Char) → List Branch
  | [] => []
  | l :: ls =>
      { id := nid ++ "-clar-" ++ toString (start + 1), label := String.mk l }
        :: assignClarIds nid (start + 1) ls

/-- `parseClarifiesFromText`. -/
def parseClarifiesFromText (text nid : String) : List Branch :=
  assignClarIds nid 0 ((dedupLabels [] (clarifyLabels text)).take 4)

/-- `parseRootFromText`: trimmed raw `<root>` body, or `null`. -/
def parseRootFromText (text : String) : Option String :=
  match execTagCI "root" text.toList with
  | none => none
  | some body =>
      let raw := trimL body
      if raw = [] then none else some (String.mk raw)

/-- Parsed root title/content. -/
structure RootParsed where
  title : String
  content : Option String := none
deriving DecidableEq, Repr

/-- `parseClarifyRootFromText`. -/
def parseClarifyRootFromText (text : String) : RootParsed :=
  match execTagCI "root" text.toList with
  | none => { title := "" }
  | some body =>
      let raw := trimL body
      if raw = [] then { title := "" }
      else
        { title := String.mk (jsOrL (titleCore raw) "Root".toList),
          content := (contentOf raw).map String.mk }

/-! ### Generation client, mock mode (src/lib/llm.ts) -/

/-- `getMockResponse(promptType)`: the canned tagged responses. -/
def getMockResponse (promptType : Option String) : String :=
  match promptType with
  | some "init" =>
      "<root><title>Get started</title><content>Refined from your idea</content></root>\n" ++
      "<step><title>First step</title><content>Initial step description.</content></step>\n" ++
      "<step><title>Second step</title><content>Second step description.</content></step>\n" ++
      "<step><title>Third step</title><content>Third step description.</content></step>\n" ++
      "<answer><title>Direct answer</title><content>When confident, a final answer option.</content></answer>\n" ++
      "<clarify>Any constraints or preferences?</clarify>\n" ++
      "<clarify>What’s your timeline?</clarify>"
  | some "clarify" =>
      "<root><title>Refined topic</title><content>With your context applied</content></root>\n" ++
      "<step><title>Option A</title><content>Description for option A.</content></step>\n" ++
      "<step><title>Option B</title><content>Description for option B.</content></step>\n" ++
      "<answer><title>Recommended</title><content>Best fit when sure.</content></answer>\n" ++
      "<clarify>Need more detail?</clarify>"
  | some "answerPath" =>
      "<step><title>Next step A</title><content>Content for first option.</content></step>\n" ++
      "<step><title>Next step B</title><content>Content for second option.</content></step>\n" ++
      "<answer><title>Final answer</title><content>Confident conclusion when applicable.</content></answer>\n" ++
      "<clarify>Need more detail?</clarify>"
  | _ =>
      "<step><title>Branch A</title><content>Option A.</content></step>\n" ++
      "<step><title>Branch B</title><content>Option B.</content></step>\n" ++
      "<answer><title>Suggested answer</title><content>When confident.</content></answer>\n" ++
      "<clarify>Would you like more branches or details?</clarify>"

/-- The `{branches, answers, clarifies}` tuple shared by the expansion
    entry points. -/
structure ExpandResult where
  branches : List Branch
  answers : List Branch
  clarifies : List Branch
deriving DecidableEq, Repr

/-- The parse pipeline common to `initializeNodeWithGemini`,
    `expandAnswerPathWithGemini` and `expandNodeWithGemini`:
    parse steps and answers; if no step parsed but some answer was,
    reinterpret answers as branches (legacy fallback) and drop the answers. -/
def parseExpand (text nid : String) : ExpandResult :=
  let branches := parseStepsFromText text nid
  let answers := parseFinalAnswersFromText text nid
  if branches.length = 0 ∧ answers.length > 0 then
    { branches := parseBranchesFromText text nid,
      answers := [],
      clarifies := parseClarifiesFromText text nid }
  else
    { branches := branches, answers := answers,
      clarifies := parseClarifiesFromText text nid }

/-- `expandAnswerPathWithGemini` in mock mode: the prompt is ignored by the
    mock client; only the canned `answerPath` text reaches the parser. -/
def mockExpandAnswerPath (nodeId : String) : ExpandResult :=
  parseExpand (getMockResponse (some "answerPath")) (jsOr nodeId "node")

/-- Result type of `initializeNodeWithGemini`. -/
structure InitializeResult where
  title : String
  content : Option String := none
  clarifies : List Branch
  branches : List Branch
  answers : List Branch
deriving DecidableEq, Repr

/-- Split on `/\r?\n/`. -/
def splitLines : List Char → List (List Char)
  | [] => [[]]
  | '\r' :: '\n' :: cs => [] :: splitLines cs
  | '\n' :: cs => [] :: splitLines cs
  | c :: cs =>
      match splitLines cs with
      | [] => [[c]]
      | l :: ls => (c :: l) :: ls

/-- `text.split(/\r?\n/).map(l => l.trim()).find(l => l.length > 0)`. -/
def firstNonblankLine (text : String) : Option (List Char) :=
  ((splitLines text.toList).map trimL).find? (fun l => !l.isEmpty)

/-- `initializeNodeWithGemini` in mock mode (purpose `init`). -/
def initializeNodeMock (nodeId : String) : InitializeResult :=
  let text := getMockResponse (some "init")
  let nid := jsOr nodeId "node"
  let r := parseExpand text nid
  let rootParsed := parseClarifyRootFromText text
  let fallbackTitle :=
    jsOr ((parseRootFromText text).getD "")
      (jsOr ((r.branches.head?.map Branch.label).getD "")
        (jsOr ((r.answers.head?.map Branch.label).getD "")
          (jsOr (((firstNonblankLine text).map String.mk).getD "") "New Node")))
  { title := jsOr rootParsed.title fallbackTitle,
    content := rootParsed.content,
    clarifies := r.clarifies,
    branches := r.branches,
    answers := r.answers }

/-- Result type of `repromptRootWithClarify` (the llm.ts helper). -/
structure ClarifyResult where
  title : String
  content : Option String := none
  branches : List Branch
  answers : List Branch
  clarifies : List Branch
deriving DecidableEq, Repr

/-- `repromptRootWithClarify` (llm.ts) in mock mode (purpose `clarify`). -/
def repromptRootMock (rootTitle : String) (rootContent : Option String) : ClarifyResult :=
  let text := getMockResponse (some "clarify")
  let rootParsed := parseClarifyRootFromText text
  let r := parseExpand text "root"
  { title := jsOr rootParsed.title rootTitle,
    content := match rootParsed.content with
               | some c => some c
               | none => rootContent,
    branches := r.branches,
    answers := r.answers,
    clarifies := r.clarifies }

/-! ### Graph data model (React Flow nodes/edges as used by the store) -/

/-- Screen position; JavaScript number arithmetic here is exact in ℚ. -/
structure Pos where
  x : ℚ
  y : ℚ
deriving DecidableEq, Repr

/-- The `data` record of a mind-map node (the fields the engine touches).
    Absent JavaScript properties are `none`. -/
structure NodeData where
  label : String
  title : Option String := none
  content : Option String := none
  details : Option String := none
  inputValue : Option String := none
  nodeType : Option String := none
deriving DecidableEq, Repr

/-- A graph node.  The constant UI fields (`type: 'mind'`,
    `dragHandle: '.drag-handle'`) are identical on every node the engine
    creates and are omitted. -/
structure GNode where
  id : String
  position : Pos
  data : NodeData
deriving DecidableEq, Repr

/-- A graph edge; `linkType` is the `data.linkType` discriminator and
    `variant` the React Flow edge `type` (e.g. `'smoothstep'`). -/
structure GEdge where
  id : String
  source : String
  target : String
  linkType : String
  sourceHandle : Option String := none
  targetHandle : Option String := none
  variant : Option String := none
deriving DecidableEq, Repr

/-- The store state restricted to the selected session: its map
    (`nodes`/`edges`), the loading flag and the node selection. -/
structure Store where
  nodes : List GNode
  edges : List GEdge
  promptLoading : Bool
  selectedNodeId : Option String := none
deriving DecidableEq, Repr

/-! ### Layout constants (`LAYOUT`, node size, padding) -/

def branchOffsetX : ℚ := -240
def branchSpacingX : ℚ := 360
def branchDy : ℚ := 280
def infoOffsetX : ℚ := 400
def infoSpacingY : ℚ := 100
def infoOffsetY : ℚ := -50
def nodeWidth : ℚ := 320
def nodeHeight : ℚ := 120
def expansionPadding : ℚ := 48

/-! ### Placement of freshly parsed branches -/

/-- One step/answer node at row slot `slot` below the source `(sx, sy)`. -/
def mkRowNode (sx sy : ℚ) (nodeType : String) (slot : Nat) (b : Branch) : GNode :=
  { id := b.id,
    position := { x := sx + branchOffsetX + (slot : ℚ) * branchSpacingX,
                  y := sy + branchDy },
    data := { label := b.label, content := b.content, nodeType := some nodeType } }

/-- `.map((b, idx) => …)` over branch lists, placing consecutive row slots
    starting at `slot` (steps start at 0, answers at `stepCount`). -/
def placeRow (sx sy : ℚ) (nodeType : String) : Nat → List Branch → List GNode
  | _, [] => []
  | slot, b :: bs => mkRowNode sx sy nodeType slot b :: placeRow sx sy nodeType (slot + 1) bs

/-- One clarifier/info node: index `idx` of the list goes left when
    `idx < mid` (`mid = ceil(n/2)`), else right; stacked by row index. -/
def mkClarNode (sx sy : ℚ) (mid idx : Nat) (c : Branch) : GNode :=
  let isLeft := idx < mid
  let rowIdx := if isLeft then idx else idx - mid
  { id := c.id,
    position := { x := sx + (if isLeft then -infoOffsetX else infoOffsetX),
                  y := sy + (rowIdx : ℚ) * infoSpacingY + infoOffsetY },
    data := { label := c.label, nodeType := some "info" } }

/-- `.map((c, idx) => …)` over the clarifier list. -/
def placeClarifies (sx sy : ℚ) (mid : Nat) : Nat → List Branch → List GNode
  | _, [] => []
  | idx, c :: cs => mkClarNode sx sy mid idx c :: placeClarifies sx sy mid (idx + 1) cs

/-- A `post` edge `src → n` with deterministic id. -/
def mkPostEdge (src : String) (n : GNode) : GEdge :=
  { id := "e-" ++ src ++ "-" ++ n.id, source := src, target := n.id, linkType := "post" }

/-- An `info` edge with side-dependent handles and `smoothstep` rendering. -/
def mkInfoEdge (src : String) (mid i : Nat) (n : GNode) : GEdge :=
  { id := "e-" ++ src ++ "-" ++ n.id, source := src, target := n.id, linkType := "info",
    sourceHandle := some (if i < mid then "left" else "rightSource"),
    targetHandle := some (if i < mid then "right" else "leftTarget"),
    variant := some "smoothstep" }

/-- `.map((n, i) => …)` building info edges. -/
def infoEdgesOf (src : String) (mid : Nat) : Nat → List GNode → List GEdge
  | _, [] => []
  | i, n :: ns => mkInfoEdge src mid i n :: infoEdgesOf src mid (i + 1) ns

/-! ### Overlap push-away (`pushNodesAwayFromExpansion`) -/

/-- `Math.min(...)` over a list (guarded nonempty at the call site). -/
def rminList : List ℚ → ℚ
  | [] => 0
  | [x] => x
  | x :: y :: xs => min x (rminList (y :: xs))

/-- `Math.max(...)` over a list (guarded nonempty at the call site). -/
def rmaxList : List ℚ → ℚ
  | [] => 0
  | [x] => x
  | x :: y :: xs => max x (rmaxList (y :: xs))

/-- The padded bounding region of the expansion nodes. -/
structure Region where
  minX : ℚ
  maxX : ℚ
  minY : ℚ
  maxY : ℚ
deriving DecidableEq, Repr

/-- Region bounds computed from the freshly placed nodes. -/
def expansionRegion (expNodes : List GNode) : Region :=
  { minX := rminList (expNodes.map (fun n => n.position.x)) - expansionPadding,
    maxX := rmaxList (expNodes.map (fun n => n.position.x)) + nodeWidth + expansionPadding,
    minY := rminList (expNodes.map (fun n => n.position.y)) - expansionPadding,
    maxY := rmaxList (expNodes.map (fun n => n.position.y)) + nodeHeight + expansionPadding }

/-- The per-node displacement step of `pushNodesAwayFromExpansion`. -/
def pushOne (r : Region) (excludeIds : List String) (n : GNode) : GNode :=
  if n.id ∈ excludeIds then n
  else
    let nx := n.position.x
    let ny := n.position.y
    let nRight := nx + nodeWidth
    let nBottom := ny + nodeHeight
    let overlapLeft := nRight - r.minX
    let overlapRight := r.maxX - nx
    let overlapTop := nBottom - r.minY
    let overlapBottom := r.maxY - ny
    if ¬(overlapLeft > 0 ∧ overlapRight > 0) ∧ ¬(overlapTop > 0 ∧ overlapBottom > 0) then n
    else
      let cx := (r.minX + r.maxX) / 2
      let cy := (r.minY + r.maxY) / 2
      let dx := if overlapLeft > 0 ∧ overlapRight > 0 then
                  (if nx < cx then -overlapLeft else overlapRight) else 0
      let dy := if overlapTop > 0 ∧ overlapBottom > 0 then
                  (if ny < cy then -overlapTop else overlapBottom) else 0
      { n with position := { x := nx + dx, y := ny + dy } }

/-- `pushNodesAwayFromExpansion(existingNodes, expansionNodes, excludeIds)`. -/
def pushNodesAwayFromExpansion (existingNodes expansionNodes : List GNode)
    (excludeIds : List String) : List GNode :=
  match expansionNodes with
  | [] => existingNodes
  | _ :: _ => existingNodes.map (pushOne (expansionRegion expansionNodes) excludeIds)

/-! ### Store operations (sessions store orchestration) -/

def rootDefaultPos : Pos := { x := 250, y := 120 }

/-- The freshly created root node. -/
def mkRootNode (label : String) : GNode :=
  { id := "root", position := rootDefaultPos,
    data := { label := label, title := some label, nodeType := some "root" } }

/-- The synchronous part of `createRoot`: create or rename the root and
    select it (`{...map, nodes: [root]}` keeps the session's edges). -/
def createRootSync (label : String) (st : Store) : Store :=
  if st.nodes.any (fun n => n.id = "root") then
    { st with
      nodes := st.nodes.map (fun n =>
        if n.id = "root" then
          { n with data := { n.data with
              label := label, title := some label, nodeType := some "root" } }
        else n),
      selectedNodeId := some "root" }
  else
    { st with nodes := [mkRootNode label], selectedNodeId := some "root" }

/-- The asynchronous init commit inside `createRoot`: retitle the root and
    additively attach parsed step (post), answer (post) and clarify (info)
    children, filtering id collisions. -/
def createRootInitCommit (res : InitializeResult) (st : Store) : Store :=
  let sourceNode := st.nodes.find? (fun n => n.id = "root")
  let nodesUpdated := st.nodes.map (fun n =>
    if n.id = "root" then
      { n with data := { n.data with
          label := res.title, title := some res.title,
          content := match res.content with
                     | some c => some c
                     | none => n.data.content } }
    else n)
  let existingIds := nodesUpdated.map (fun n => n.id)
  let sx := ((sourceNode.map (fun n => n.position.x)).getD 250)
  let sy := ((sourceNode.map (fun n => n.position.y)).getD 120)
  let branchNodes := placeRow sx sy "step" 0 (res.branches.filter (fun b => b.id ∉ existingIds))
  let stepCount := branchNodes.length
  let answerNodes := placeRow sx sy "answer" stepCount
    (res.answers.filter (fun b => b.id ∉ existingIds))
  let branchEdges := branchNodes.map (mkPostEdge "root")
  let answerEdges := answerNodes.map (mkPostEdge "root")
  let infoArr := res.clarifies.filter (fun c => c.id ∉ existingIds)
  let infoMid := (infoArr.length + 1) / 2
  let infoNodes := placeClarifies sx sy infoMid 0 infoArr
  let infoEdges := infoEdgesOf "root" infoMid 0 infoNodes
  { st with
      nodes := nodesUpdated ++ branchNodes ++ answerNodes ++ infoNodes,
      edges := st.edges ++ branchEdges ++ answerEdges ++ infoEdges,
      promptLoading := false }

/-- `createRoot` as one sequential trace: the synchronous part, then —
    when the root was freshly created — the loading flag and the resolution
    of the generation promise (`.ok` commits, `.error` only clears the
    flag). -/
def createRoot (label : String) (st : Store) (outcome : Except Unit InitializeResult) : Store :=
  if st.nodes.any (fun n => n.id = "root") then createRootSync label st
  else
    let st1 := { createRootSync label st with promptLoading := true }
    match outcome with
    | .error _ => { st1 with promptLoading := false }
    | .ok res => createRootInitCommit res st1

/-- `createRoot` in mock mode: the init promise resolves with the parse of
    the canned `init` response. -/
def createRootMock (label : String) (st : Store) : Store :=
  createRoot label st (.ok (initializeNodeMock "root"))

/-- The success commit of the store's `repromptRootWithClarify`: the root is
    retitled in place and the whole node/edge set is replaced by the root
    plus the freshly parsed children. -/
def repromptCommit (rootNode : GNode) (res : ClarifyResult) (st : Store) : Store :=
  let rootPosition := rootNode.position
  let updatedRoot : GNode :=
    { rootNode with
        position := rootPosition,
        data := { rootNode.data with
            label := res.title, title := some res.title,
            content := res.content, nodeType := some "root" } }
  let branchNodes := placeRow rootPosition.x rootPosition.y "step" 0 res.branches
  let stepCount := branchNodes.length
  let answerNodes := placeRow rootPosition.x rootPosition.y "answer" stepCount res.answers
  let branchEdges := branchNodes.map (mkPostEdge "root")
  let answerEdges := answerNodes.map (mkPostEdge "root")
  let infoMid := (res.clarifies.length + 1) / 2
  let infoNodes := placeClarifies rootPosition.x rootPosition.y infoMid 0 res.clarifies
  let infoEdges := infoEdgesOf "root" infoMid 0 infoNodes
  { st with
      nodes := updatedRoot :: (branchNodes ++ answerNodes ++ infoNodes),
      edges := branchEdges ++ answerEdges ++ infoEdges,
      selectedNodeId := some "root",
      promptLoading := false }

/-- The store's `repromptRootWithClarify` as one sequential trace. -/
def repromptRootStore (st : Store) (outcome : Except Unit ClarifyResult) : Store :=
  match st.nodes.find? (fun n => n.id = "root") with
  | none => st
  | some rootNode =>
      match outcome with
      | .error _ => { st with promptLoading := false }
      | .ok res => repromptCommit rootNode res st

/-- Whether `repromptRootWithClarify` reaches the generation call. -/
def repromptIssuesRequest (st : Store) : Bool :=
  (st.nodes.find? (fun n => n.id = "root")).isSome

def defaultGNode : GNode := { id := "", position := { x := 0, y := 0 }, data := { label := "" } }

/-- The `details`/`inputValue` patch `expandAnswerPath` applies in place to
    the expanded node. -/
def patchDetails (nodeId userInput : String) (n : GNode) : GNode :=
  if n.id = nodeId then
    { n with data := { n.data with
        details := some userInput, inputValue := some "" } }
  else n

/-- The success commit of the store's `expandAnswerPath`. -/
def expandCommit (nodeId userInput : String) (res : ExpandResult) (st : Store) : Store :=
  let existingIds := st.nodes.map (fun n => n.id)
  let source := st.nodes.find? (fun n => n.id = nodeId)
  let pos := (source.map (fun n => n.position)).getD { x := 250, y := 120 }
  let nodesUpdated := st.nodes.map (patchDetails nodeId userInput)
  let branchNodes := placeRow pos.x pos.y "step" 0 (res.branches.filter (fun b => b.id ∉ existingIds))
  let stepCount := branchNodes.length
  let answerNodes := placeRow pos.x pos.y "answer" stepCount
    (res.answers.filter (fun b => b.id ∉ existingIds))
  let branchEdges := branchNodes.map (mkPostEdge nodeId)
  let answerEdges := answerNodes.map (mkPostEdge nodeId)
  let allNewIds := nodesUpdated.map (fun n => n.id) ++ branchNodes.map (fun n => n.id)
      ++ answerNodes.map (fun n => n.id)
  let clarifyList := res.clarifies.filter (fun c => c.id ∉ allNewIds)
  let clarifyMid := (clarifyList.length + 1) / 2
  let clarifyNodes := placeClarifies pos.x pos.y clarifyMid 0 clarifyList
  let clarifyEdges := infoEdgesOf nodeId clarifyMid 0 clarifyNodes
  let stepNode := (nodesUpdated.find? (fun n => n.id = nodeId)).getD defaultGNode
  let expansionNodes := ({ stepNode with position := pos } : GNode)
      :: (branchNodes ++ answerNodes ++ clarifyNodes)
  let shiftedExisting := pushNodesAwayFromExpansion nodesUpdated expansionNodes [nodeId]
  { st with
      nodes := shiftedExisting ++ branchNodes ++ answerNodes ++ clarifyNodes,
      edges := st.edges ++ branchEdges ++ answerEdges ++ clarifyEdges,
      selectedNodeId := some nodeId,
      promptLoading := false }

/-- The store's `expandAnswerPath` as one sequential trace: no-op unless a
    root and the target node both exist; on success commit additively. -/
def expandAnswerPathStore (st : Store) (nodeId userInput : String)
    (outcome : Except Unit ExpandResult) : Store :=
  match st.nodes.find? (fun n => n.id = "root"), st.nodes.find? (fun n => n.id = nodeId) with
  | some _, some _ =>
      match outcome with
      | .error _ => { st with promptLoading := false }
      | .ok res => expandCommit nodeId userInput res st
  | _, _ => st

/-- Whether `expandAnswerPath` reaches the generation call. -/
def expandIssuesRequest (st : Store) (nodeId : String) : Bool :=
  (st.nodes.find? (fun n => n.id = "root")).isSome &&
  (st.nodes.find? (fun n => n.id = nodeId)).isSome

/-! ### General lemmas about the embedded operations -/

theorem assignIds_length (p : String) (s : Nat) (rs : List PreBranch) :
    (assignIds p s rs).length = rs.length := by
  induction rs generalizing s with
  | nil => rfl
  | cons r rs ih => simp [assignIds, ih]

theorem assignIds_map_label (p : String) (s : Nat) (rs : List PreBranch) :
    (assignIds p s rs).map Branch.label = rs.map (fun r => String.mk r.label) := by
  induction rs generalizing s with
  | nil => rfl
  | cons r rs ih => simp [assignIds, ih]

theorem assignIds_eq_nil_iff (p : String) (s : Nat) (rs : List PreBranch) :
    assignIds p s rs = [] ↔ rs = [] := by
  cases rs <;> simp [assignIds]

theorem assignClarIds_length (nid : String) (s : Nat) (ls : List (List Char)) :
    (assignClarIds nid s ls).length = ls.length := by
  induction ls generalizing s with
  | nil => rfl
  | cons l ls ih => simp [assignClarIds, ih]

theorem assignClarIds_map_label (nid : String) (s : Nat) (ls : List (List Char)) :
    (assignClarIds nid s ls).map Branch.label = ls.map String.mk := by
  induction ls generalizing s with
  | nil => rfl
  | cons l ls ih => simp [assignClarIds, ih]

/-- Keep the first occurrence of every element, in order: the reference
    formulation of first-seen deduplication. -/
def dedupFirstSeen : List (List Char) → List (List Char)
  | [] => []
  | a :: l => a :: dedupFirstSeen (l.filter (fun x => x ≠ a))
termination_by l => l.length
decreasing_by simp; exact Nat.lt_succ_of_le (List.length_filter_le _ _)

theorem mem_dedupLabels {seen ls : List (List Char)} {x : List Char}
    (h : x ∈ dedupLabels seen ls) : x ∈ ls ∧ x ∉ seen := by
  induction ls generalizing seen with
  | nil => simp [dedupLabels] at h
  | cons l ls ih =>
      simp only [dedupLabels] at h
      split at h
      · have := ih h
        exact ⟨List.mem_cons_of_mem _ this.1, this.2⟩
      · rcases List.mem_cons.mp h with h1 | h1
        · subst h1
          exact ⟨List.mem_cons_self _ _, by assumption⟩
        · have := ih h1
          refine ⟨List.mem_cons_of_mem _ this.1, ?_⟩
          intro hx
          exact this.2 (List.mem_cons_of_mem _ hx)

theorem dedupLabels_nodup (seen ls : List (List Char)) :
    (dedupLabels seen ls).Nodup := by
  induction ls generalizing seen with
  | nil => simp [dedupLabels]
  | cons l ls ih =>
      simp only [dedupLabels]
      split
      · exact ih seen
      · refine List.nodup_cons.mpr ⟨?_, ih (l :: seen)⟩
        intro hmem
        exact (mem_dedupLabels hmem).2 (List.mem_cons_self _ _)

theorem dedupLabels_sublist (seen ls : List (List Char)) :
    (dedupLabels seen ls).Sublist ls := by
  induction ls generalizing seen with
  | nil => simp [dedupLabels]
  | cons l ls ih =>
      simp only [dedupLabels]
      split
      · exact (ih seen).cons l
      · exact (ih (l :: seen)).cons₂ l

theorem dedupLabels_eq_dedupFirstSeen (seen ls : List (List Char)) :
    dedupLabels seen ls = dedupFirstSeen (ls.filter (fun x => x ∉ seen)) := by
  induction ls generalizing seen with
  | nil => simp [dedupLabels, dedupFirstSeen]
  | cons l ls ih =>
      by_cases hl : l ∈ seen
      · have hdec : (decide (l ∉ seen)) = false := by simpa using hl
        simp only [dedupLabels, if_pos hl, List.filter_cons, hdec, Bool.false_eq_true,
          if_false]
        exact ih seen
      · have hdec : (decide (l ∉ seen)) = true := by simpa using hl
        simp only [dedupLabels, if_neg hl, List.filter_cons, hdec, if_true]
        rw [dedupFirstSeen]
        congr 1
        rw [ih (l :: seen), List.filter_filter]
        congr 1
        apply List.filter_congr
        intro x _
        by_cases h1 : x = l <;> by_cases h2 : x ∈ seen <;> simp [h1, h2]

theorem dedupByLabel_map_label (seen : List (List Char)) (rs : List PreBranch) :
    (dedupByLabel seen rs).map PreBranch.label = dedupLabels seen (rs.map PreBranch.label) := by
  induction rs generalizing seen with
  | nil => rfl
  | cons r rs ih =>
      simp only [dedupByLabel, dedupLabels, List.map_cons]
      split
      · exact ih seen
      · simp [ih]

theorem dedupByLabel_sublist (seen : List (List Char)) (rs : List PreBranch) :
    (dedupByLabel seen rs).Sublist rs := by
  induction rs generalizing seen with
  | nil => simp [dedupByLabel]
  | cons r rs ih =>
      simp only [dedupByLabel]
      split
      · exact (ih seen).cons r
      · exact (ih (r.label :: seen)).cons₂ r

theorem placeRow_length (sx sy : ℚ) (ty : String) (s : Nat) (bs : List Branch) :
    (placeRow sx sy ty s bs).length = bs.length := by
  induction bs generalizing s with
  | nil => rfl
  | cons b bs ih => simp [placeRow, ih]

theorem placeRow_map_id (sx sy : ℚ) (ty : String) (s : Nat) (bs : List Branch) :
    (placeRow sx sy ty s bs).map (fun n => n.id) = bs.map Branch.id := by
  induction bs generalizing s with
  | nil => rfl
  | cons b bs ih => simp [placeRow, ih, mkRowNode]

theorem placeRow_getElem? (sx sy : ℚ) (ty : String) (s : Nat) (bs : List Branch) (i : Nat) :
    (placeRow sx sy ty s bs)[i]? = (bs[i]?).map (mkRowNode sx sy ty (s + i)) := by
  induction bs generalizing s i with
  | nil => simp [placeRow]
  | cons b bs ih =>
      cases i with
      | zero => simp [placeRow]
      | succ j =>
          have hsj : s + 1 + j = s + (j + 1) := by omega
          simp only [placeRow, List.getElem?_cons_succ, ih (s + 1) j, hsj]

theorem placeClarifies_length (sx sy : ℚ) (mid s : Nat) (cs : List Branch) :
    (placeClarifies sx sy mid s cs).length = cs.length := by
  induction cs generalizing s with
  | nil => rfl
  | cons c cs ih => simp [placeClarifies, ih]

theorem placeClarifies_map_id (sx sy : ℚ) (mid s : Nat) (cs : List Branch) :
    (placeClarifies sx sy mid s cs).map (fun n => n.id) = cs.map Branch.id := by
  induction cs generalizing s with
  | nil => rfl
  | cons c cs ih => simp [placeClarifies, ih, mkClarNode]

theorem placeClarifies_getElem? (sx sy : ℚ) (mid s : Nat) (cs : List Branch) (i : Nat) :
    (placeClarifies sx sy mid s cs)[i]? = (cs[i]?).map (mkClarNode sx sy mid (s + i)) := by
  induction cs generalizing s i with
  | nil => simp [placeClarifies]
  | cons c cs ih =>
      cases i with
      | zero => simp [placeClarifies]
      | succ j =>
          have hsj : s + 1 + j = s + (j + 1) := by omega
          simp only [placeClarifies, List.getElem?_cons_succ, ih (s + 1) j, hsj]

theorem infoEdgesOf_src_target {src : String} {mid i : Nat} {ns : List GNode} {e : GEdge}
    (h : e ∈ infoEdgesOf src mid i ns) :
    e.source = src ∧ e.target ∈ ns.map (fun n => n.id) := by
  induction ns generalizing i with
  | nil => simp [infoEdgesOf] at h
  | cons n ns ih =>
      simp only [infoEdgesOf, List.mem_cons] at h
      rcases h with h | h
      · subst h
        exact ⟨rfl, by simp [mkInfoEdge]⟩
      · have := ih h
        exact ⟨this.1, by simp [this.2]⟩

theorem pushOne_id (r : Region) (excl : List String) (n : GNode) :
    (pushOne r excl n).id = n.id := by
  unfold pushOne
  split
  · rfl
  · dsimp only
    split <;> rfl

theorem pushOne_data (r : Region) (excl : List String) (n : GNode) :
    (pushOne r excl n).data = n.data := by
  unfold pushOne
  split
  · rfl
  · dsimp only
    split <;> rfl

theorem mem_assignIds {p : String} {s : Nat} {rs : List PreBranch} {b : Branch}
    (h : b ∈ assignIds p s rs) : ∃ r ∈ rs, b.label = String.mk r.label := by
  induction rs generalizing s with
  | nil => simp [assignIds] at h
  | cons r rs ih =>
      simp only [assignIds, List.mem_cons] at h
      rcases h with h | h
      · exact ⟨r, List.mem_cons_self _ _, by simp [h]⟩
      · obtain ⟨r', hr', hl⟩ := ih h
        exact ⟨r', List.mem_cons_of_mem _ hr', hl⟩

theorem stringMk_injective : Function.Injective String.mk := by
  intro a b h
  injection h

theorem dedupFirstSeen_eq_dedupLabels (ls : List (List Char)) :
    dedupFirstSeen ls = dedupLabels [] ls := by
  rw [dedupLabels_eq_dedupFirstSeen]
  congr 1
  symm
  apply List.filter_eq_self.mpr
  intro a _
  simp

theorem dedupFirstSeen_nodup (ls : List (List Char)) : (dedupFirstSeen ls).Nodup := by
  rw [dedupFirstSeen_eq_dedupLabels]
  exact dedupLabels_nodup [] ls

/-- The shared shape of `parseTagBranches`: labels are the first-seen
    deduplication of the extracted labels, capped at 6, hence pairwise
    distinct. -/
theorem parseTagBranches_spec (text tag pfx : String) :
    ((parseTagBranches text tag pfx).map Branch.label).Nodup ∧
    (parseTagBranches text tag pfx).length ≤ 6 ∧
    (parseTagBranches text tag pfx).map Branch.label =
      ((dedupFirstSeen ((collectBodies tag text.toList).map PreBranch.label)).take 6).map
        String.mk := by
  have hlab : (parseTagBranches text tag pfx).map Branch.label =
      ((dedupFirstSeen ((collectBodies tag text.toList).map PreBranch.label)).take 6).map
        String.mk := by
    unfold parseTagBranches
    rw [assignIds_map_label]
    rw [show (fun r : PreBranch => String.mk r.label) =
          (String.mk ∘ PreBranch.label) from rfl]
    rw [← List.map_map]
    congr 1
    rw [dedupFirstSeen_eq_dedupLabels, List.map_take, dedupByLabel_map_label]
  refine ⟨?_, ?_, hlab⟩
  · rw [hlab]
    refine List.Nodup.map stringMk_injective ?_
    exact ((dedupFirstSeen_nodup _).sublist (List.take_sublist _ _))
  · unfold parseTagBranches
    rw [assignIds_length]
    exact List.length_take_le _ _

theorem parseClarifies_spec (text nid : String) :
    ((parseClarifiesFromText text nid).map Branch.label).Nodup ∧
    (parseClarifiesFromText text nid).length ≤ 4 ∧
    (parseClarifiesFromText text nid).map Branch.label =
      ((dedupFirstSeen (clarifyLabels text)).take 4).map String.mk := by
  have hlab : (parseClarifiesFromText text nid).map Branch.label =
      ((dedupFirstSeen (clarifyLabels text)).take 4).map String.mk := by
    unfold parseClarifiesFromText
    rw [assignClarIds_map_label, dedupFirstSeen_eq_dedupLabels, List.map_take]
  refine ⟨?_, ?_, hlab⟩
  · rw [hlab]
    refine List.Nodup.map stringMk_injective ?_
    exact ((dedupFirstSeen_nodup _).sublist (List.take_sublist _ _))
  · unfold parseClarifiesFromText
    rw [assignClarIds_length]
    exact List.length_take_le _ _

theorem parseTagBranches_nil_of_nil {text tag p1 : String} (p2 : String)
    (h : parseTagBranches text tag p1 = []) : parseTagBranches text tag p2 = [] := by
  unfold parseTagBranches at h ⊢
  rw [assignIds_eq_nil_iff] at h ⊢
  exact h

theorem parseTagBranches_of_extract_nil {text tag : String} (p : String)
    (h : extractTag tag text.toList = []) : parseTagBranches text tag p = [] := by
  unfold parseTagBranches collectBodies
  rw [h]
  rfl

/-! ### Claim theorems: tagged-response parser -/

/-- C6: for every input text, the parsed step and answer lists each have
    pairwise distinct labels (case-sensitive), keep the first-seen order of
    extraction, and are capped at 6 entries; the parsed clarify list likewise
    has distinct labels in first-seen order, capped at 4. -/
theorem C6_dedup_and_caps (text nid : String) :
    ((parseStepsFromText text nid).map Branch.label).Nodup ∧
    (parseStepsFromText text nid).length ≤ 6 ∧
    (parseStepsFromText text nid).map Branch.label =
      ((dedupFirstSeen ((collectBodies "step" text.toList).map PreBranch.label)).take 6).map
        String.mk ∧
    ((parseFinalAnswersFromText text nid).map Branch.label).Nodup ∧
    (parseFinalAnswersFromText text nid).length ≤ 6 ∧
    (parseFinalAnswersFromText text nid).map Branch.label =
      ((dedupFirstSeen ((collectBodies "answer" text.toList).map PreBranch.label)).take 6).map
        String.mk ∧
    ((parseClarifiesFromText text nid).map Branch.label).Nodup ∧
    (parseClarifiesFromText text nid).length ≤ 4 ∧
    (parseClarifiesFromText text nid).map Branch.label =
      ((dedupFirstSeen (clarifyLabels text)).take 4).map String.mk := by
  obtain ⟨s1, s2, s3⟩ := parseTagBranches_spec text "step" (nid ++ "-step")
  obtain ⟨a1, a2, a3⟩ := parseTagBranches_spec text "answer" (nid ++ "-ans")
  obtain ⟨c1, c2, c3⟩ := parseClarifies_spec text nid
  exact ⟨s1, s2, s3, a1, a2, a3, c1, c2, c3⟩

/-- C5: when the text has no `<step>` match but at least one `<answer>`
    match, the expansion parse reinterprets the `<answer>` matches as step
    branches (with the legacy `-gen` id prefix) and returns an empty answer
    list. -/
theorem C5_legacy_answer_fallback (text nid : String)
    (hstep : extractTag "step" text.toList = [])
    (hans : extractTag "answer" text.toList ≠ []) :
    (parseExpand text nid).branches = parseTagBranches text "answer" (nid ++ "-gen") ∧
    (parseExpand text nid).answers = [] := by
  clear hans
  have hsteps : parseStepsFromText text nid = [] :=
    parseTagBranches_of_extract_nil _ hstep
  unfold parseExpand
  by_cases hanp : parseFinalAnswersFromText text nid = []
  · have hgen : parseTagBranches text "answer" (nid ++ "-gen") = [] :=
      parseTagBranches_nil_of_nil _ hanp
    rw [if_neg]
    · simp [hsteps, hanp, hgen]
    · simp [hanp]
  · rw [if_pos]
    · constructor
      · unfold parseBranchesFromText
        unfold parseStepsFromText at hsteps
        simp [hsteps, parseStepsFromText]
      · rfl
    · constructor
      · simp [hsteps]
      · simpa [List.length_pos] using hanp

set_option maxRecDepth 100000 in
/-- C7 counterexample: for the body `X<content>C</content>` (no `<title>`),
    the claim predicts label `"C"` (the `<content>` fallback) but the code
    strips inner tags from the whole body and yields `"XC"`. -/
theorem C7_counterexample :
    (parseStepsFromText "<step>X<content>C</content></step>" "node").map Branch.label
      = ["XC"] ∧
    (parseStepsFromText "<step>X<content>C</content></step>" "node").map Branch.label
      ≠ ["C"] := by
  constructor
  · decide
  · decide

/-- C7 amended: every parsed branch label comes from a nonblank trimmed tag
    body via `labelOf`; when a `<title>` sub-match exists the label is its
    trim (or the raw body if that trim is blank); when `<title>` is absent
    the label is the body stripped of all inner tags and trimmed (or the raw
    body if that is blank) — `<content>`/`<subtitle>` never feed the label. -/
theorem C7_label_fallback_rule (text tag pfx : String) (b : Branch)
    (hb : b ∈ parseTagBranches text tag pfx) :
    ∃ body ∈ extractTag tag text.toList,
      trimL body ≠ [] ∧
      b.label = String.mk (labelOf (trimL body)) ∧
      (∀ t, execTagCI "title" (trimL body) = some t →
        labelOf (trimL body) = jsOrL (trimL t) (trimL body)) ∧
      (execTagCI "title" (trimL body) = none →
        labelOf (trimL body) = jsOrL (trimL (stripTags (trimL body))) (trimL body)) := by
  unfold parseTagBranches at hb
  obtain ⟨r, hr, hlab⟩ := mem_assignIds hb
  have hr2 : r ∈ dedupByLabel [] (collectBodies tag text.toList) :=
    (List.take_sublist _ _).subset hr
  have hr3 : r ∈ collectBodies tag text.toList :=
    (dedupByLabel_sublist _ _).subset hr2
  unfold collectBodies at hr3
  obtain ⟨body, hbody, hf⟩ := List.mem_filterMap.mp hr3
  by_cases hraw : trimL body = []
  · rw [if_pos hraw] at hf
    cases hf
  · rw [if_neg hraw] at hf
    refine ⟨body, hbody, hraw, ?_, ?_, ?_⟩
    · rw [hlab]
      cases hf
      rfl
    · intro t ht
      unfold labelOf titleCore
      rw [ht]
    · intro ht
      unfold labelOf titleCore
      rw [ht]

/-! ### Claim theorems: end-to-end mock init scenario -/

/-- Whether `n` is the target of an edge out of the root. -/
def isChildOfRoot (st : Store) (n : GNode) : Bool :=
  st.edges.any (fun e => e.source == "root" && e.target == n.id)

/-- Ids of root children carrying the given `nodeType`, in node order. -/
def rootChildIdsOfType (st : Store) (ty : String) : List String :=
  (st.nodes.filter (fun n => n.data.nodeType == some ty && isChildOfRoot st n)).map
    (fun n => n.id)

/-- The store after `createRoot "Travel"` on a fresh session in mock mode,
    once the asynchronous init expansion has committed. -/
def travelStore : Store :=
  createRootMock "Travel" { nodes := [], edges := [], promptLoading := false }

set_option maxRecDepth 100000 in
/-- C1 counterexample: the canned init response contains three `<step>`
    tags, so the committed graph has three step children of the root
    (ids `root-step-1..3`), not two. -/
theorem C1_counterexample :
    rootChildIdsOfType travelStore "step" = ["root-step-1", "root-step-2", "root-step-3"] ∧
    (rootChildIdsOfType travelStore "step").length ≠ 2 := by
  constructor
  · decide
  · decide

set_option maxRecDepth 100000 in
/-- C1 amended: in mock mode with purpose `init` and label `"Travel"`, after
    the asynchronous init expansion commits, the graph has exactly one root
    node titled `"Get started"`, exactly three `step` children, one `answer`
    child and two `info` children, with ids `root-step-1`, `root-step-2`,
    `root-step-3`, `root-ans-1`, `root-clar-1`, `root-clar-2`. -/
theorem C1_mock_init_scenario :
    (travelStore.nodes.filter (fun n => n.id == "root")).map (fun n => n.data.title)
      = [some "Get started"] ∧
    rootChildIdsOfType travelStore "step" = ["root-step-1", "root-step-2", "root-step-3"] ∧
    rootChildIdsOfType travelStore "answer" = ["root-ans-1"] ∧
    rootChildIdsOfType travelStore "info" = ["root-clar-1", "root-clar-2"] := by
  refine ⟨?_, ?_, ?_, ?_⟩ <;> decide

/-! ### Claim theorems: store orchestration -/

/-- Ids of the freshly parsed children of a clarify reprompt. -/
def freshChildIds (res : ClarifyResult) : List String :=
  (res.branches ++ res.answers ++ res.clarifies).map Branch.id

/-- C2: a successful root reprompt replaces the whole session graph by the
    in-place-updated root plus exactly the freshly parsed step, answer and
    clarify children; every other pre-existing node is gone, all edges are
    fresh root edges, and the child count is the parsed
    step+answer+clarify count. -/
theorem C2_destructive_replace (st : Store) (r : GNode) (res : ClarifyResult)
    (hr : st.nodes.find? (fun n => n.id = "root") = some r) :
    (repromptRootStore st (.ok res)).nodes.length
        = 1 + (res.branches.length + res.answers.length + res.clarifies.length) ∧
    (∃ tl, (repromptRootStore st (.ok res)).nodes
        = ({ r with data := { r.data with
              label := res.title, title := some res.title,
              content := res.content, nodeType := some "root" } } : GNode) :: tl ∧
       ∀ n ∈ tl, n.id ∈ freshChildIds res) ∧
    (∀ e ∈ (repromptRootStore st (.ok res)).edges,
       e.source = "root" ∧ e.target ∈ freshChildIds res) ∧
    (∀ n ∈ st.nodes, n.id ≠ "root" → n.id ∉ freshChildIds res →
       n ∉ (repromptRootStore st (.ok res)).nodes) := by
  have hout : repromptRootStore st (.ok res) = repromptCommit r res st := by
    unfold repromptRootStore
    rw [hr]
  have hrid : r.id = "root" := by
    have := List.find?_some hr
    simpa using this
  rw [hout]
  unfold repromptCommit
  have htl : ∀ n ∈ placeRow r.position.x r.position.y "step" 0 res.branches
      ++ placeRow r.position.x r.position.y "answer"
          (placeRow r.position.x r.position.y "step" 0 res.branches).length res.answers
      ++ placeClarifies r.position.x r.position.y ((res.clarifies.length + 1) / 2) 0
          res.clarifies,
      n.id ∈ freshChildIds res := by
    intro n hn
    unfold freshChildIds
    rcases List.mem_append.mp hn with hn | hn
    · rcases List.mem_append.mp hn with hn | hn
      · have : n.id ∈ res.branches.map Branch.id := by
          rw [← placeRow_map_id r.position.x r.position.y "step" 0]
          exact List.mem_map_of_mem _ hn
        simp only [List.map_append, List.mem_append]
        exact Or.inl (Or.inl this)
      · have : n.id ∈ res.answers.map Branch.id := by
          rw [← placeRow_map_id r.position.x r.position.y "answer"
            (placeRow r.position.x r.position.y "step" 0 res.branches).length]
          exact List.mem_map_of_mem _ hn
        simp only [List.map_append, List.mem_append]
        exact Or.inl (Or.inr this)
    · have : n.id ∈ res.clarifies.map Branch.id := by
        rw [← placeClarifies_map_id r.position.x r.position.y
          ((res.clarifies.length + 1) / 2) 0]
        exact List.mem_map_of_mem _ hn
      simp only [List.map_append, List.mem_append]
      exact Or.inr this
  refine ⟨?_, ?_, ?_, ?_⟩
  · simp [placeRow_length, placeClarifies_length, List.length_append]
    omega
  · refine ⟨_, ?_, htl⟩
    simp only [List.append_assoc]
  · intro e he
    simp only [List.mem_append] at he
    unfold freshChildIds
    rcases he with (he | he) | he
    · obtain ⟨n, hn, rfl⟩ := List.mem_map.mp he
      refine ⟨rfl, ?_⟩
      have : n.id ∈ res.branches.map Branch.id := by
        rw [← placeRow_map_id r.position.x r.position.y "step" 0]
        exact List.mem_map_of_mem _ hn
      simp only [List.map_append, List.mem_append]
      exact Or.inl (Or.inl this)
    · obtain ⟨n, hn, rfl⟩ := List.mem_map.mp he
      refine ⟨rfl, ?_⟩
      have : n.id ∈ res.answers.map Branch.id := by
        rw [← placeRow_map_id r.position.x r.position.y "answer"
          (placeRow r.position.x r.position.y "step" 0 res.branches).length]
        exact List.mem_map_of_mem _ hn
      simp only [List.map_append, List.mem_append]
      exact Or.inl (Or.inr this)
    · obtain ⟨h1, h2⟩ := infoEdgesOf_src_target he
      refine ⟨h1, ?_⟩
      rw [placeClarifies_map_id] at h2
      simp only [List.map_append, List.mem_append]
      exact Or.inr h2
  · intro n hn hnid hnfresh hmem
    simp only [List.mem_cons] at hmem
    rcases hmem with hmem | hmem
    · apply hnid
      have : n.id = r.id := by rw [hmem]
      rw [this, hrid]
    · exact hnfresh (htl n (by simpa using hmem))

/-- C3: a successful `expandAnswerPath` is additive: every pre-existing node
    survives with the same id (and, except for the expanded node, the same
    data), the old edge list is an unchanged prefix of the new one, every
    added edge has the expanded node as source, and the expanded node's
    `details` is the submitted input. -/
theorem C3_additive_expansion (st : Store) (nodeId userInput : String)
    (res : ExpandResult) (r s : GNode)
    (hr : st.nodes.find? (fun n => n.id = "root") = some r)
    (hs : st.nodes.find? (fun n => n.id = nodeId) = some s) :
    (∀ n ∈ st.nodes, ∃ n' ∈ (expandAnswerPathStore st nodeId userInput (.ok res)).nodes,
        n'.id = n.id ∧ (n.id ≠ nodeId → n'.data = n.data)) ∧
    (expandAnswerPathStore st nodeId userInput (.ok res)).edges.take st.edges.length
        = st.edges ∧
    (∀ e ∈ (expandAnswerPathStore st nodeId userInput (.ok res)).edges.drop
        st.edges.length, e.source = nodeId) ∧
    (∃ n' ∈ (expandAnswerPathStore st nodeId userInput (.ok res)).nodes,
        n'.id = nodeId ∧ n'.data.details = some userInput) := by
  have hout : expandAnswerPathStore st nodeId userInput (.ok res)
      = expandCommit nodeId userInput res st := by
    unfold expandAnswerPathStore
    rw [hr, hs]
  rw [hout]
  unfold expandCommit
  simp only [pushNodesAwayFromExpansion]
  refine ⟨?_, ?_, ?_, ?_⟩
  · intro n hn
    refine ⟨_, List.mem_append_left _ (List.mem_append_left _ (List.mem_append_left _
      (List.mem_map_of_mem _ (List.mem_map_of_mem _ hn)))), ?_, ?_⟩
    · rw [pushOne_id]
      by_cases hid : n.id = nodeId <;> simp [patchDetails, hid]
    · intro hid
      rw [pushOne_data]
      simp [patchDetails, hid]
  · rw [show ∀ a b c d : List GEdge, a ++ b ++ c ++ d = a ++ (b ++ c ++ d) from
      fun a b c d => by simp [List.append_assoc]]
    exact List.take_left _ _
  · rw [show ∀ a b c d : List GEdge, a ++ b ++ c ++ d = a ++ (b ++ c ++ d) from
      fun a b c d => by simp [List.append_assoc]]
    rw [List.drop_left]
    intro e he
    simp only [List.mem_append] at he
    rcases he with (he | he) | he
    · obtain ⟨n, _, rfl⟩ := List.mem_map.mp he
      rfl
    · obtain ⟨n, _, rfl⟩ := List.mem_map.mp he
      rfl
    · exact (infoEdgesOf_src_target he).1
  · have hsid : s.id = nodeId := by
      have := List.find?_some hs
      simpa using this
    refine ⟨_, List.mem_append_left _ (List.mem_append_left _ (List.mem_append_left _
      (List.mem_map_of_mem _ (List.mem_map_of_mem _ (List.mem_of_find?_eq_some hs))))),
      ?_, ?_⟩
    · rw [pushOne_id]
      simp [patchDetails, hsid]
    · rw [pushOne_data]
      simp [patchDetails, hsid]

/-- C4: if the generation promise rejects, each of the three orchestration
    operations clears `promptLoading` and leaves the graph exactly as it was
    at the point of rejection (for `createRoot`, that is the graph committed
    by its synchronous part). -/
theorem C4_error_is_atomic (st st2 : Store) (label nodeId userInput : String)
    (hr : (st.nodes.find? (fun n => n.id = "root")).isSome)
    (hs : (st.nodes.find? (fun n => n.id = nodeId)).isSome)
    (hfresh : st2.nodes.any (fun n => n.id = "root") = false) :
    ((repromptRootStore st (.error ())).nodes = st.nodes ∧
     (repromptRootStore st (.error ())).edges = st.edges ∧
     (repromptRootStore st (.error ())).promptLoading = false) ∧
    ((expandAnswerPathStore st nodeId userInput (.error ())).nodes = st.nodes ∧
     (expandAnswerPathStore st nodeId userInput (.error ())).edges = st.edges ∧
     (expandAnswerPathStore st nodeId userInput (.error ())).promptLoading = false) ∧
    ((createRoot label st2 (.error ())).nodes = (createRootSync label st2).nodes ∧
     (createRoot label st2 (.error ())).edges = (createRootSync label st2).edges ∧
     (createRoot label st2 (.error ())).promptLoading = false) := by
  obtain ⟨r, hr'⟩ := Option.isSome_iff_exists.mp hr
  obtain ⟨s, hs'⟩ := Option.isSome_iff_exists.mp hs
  refine ⟨?_, ?_, ?_⟩
  · unfold repromptRootStore
    rw [hr']
    exact ⟨rfl, rfl, rfl⟩
  · unfold expandAnswerPathStore
    rw [hr', hs']
    exact ⟨rfl, rfl, rfl⟩
  · unfold createRoot
    rw [if_neg (by simp [hfresh])]
    exact ⟨rfl, rfl, rfl⟩

/-- C10: with no `"root"` node in the selected session, both reprompt and
    answer-path expansion return before issuing a generation request and
    change nothing; `expandAnswerPath` is likewise a complete no-op when the
    target node id does not exist. -/
theorem C10_guard_noops (st st2 : Store) (nodeId nodeId2 userInput userInput2 : String)
    (oc : Except Unit ClarifyResult) (oe oe2 : Except Unit ExpandResult)
    (hnr : st.nodes.find? (fun n => n.id = "root") = none)
    (hns : st2.nodes.find? (fun n => n.id = nodeId2) = none) :
    repromptRootStore st oc = st ∧
    repromptIssuesRequest st = false ∧
    expandAnswerPathStore st nodeId userInput oe = st ∧
    expandIssuesRequest st nodeId = false ∧
    expandAnswerPathStore st2 nodeId2 userInput2 oe2 = st2 ∧
    expandIssuesRequest st2 nodeId2 = false := by
  refine ⟨?_, ?_, ?_, ?_, ?_, ?_⟩
  · unfold repromptRootStore
    rw [hnr]
  · unfold repromptIssuesRequest
    rw [hnr]
    rfl
  · unfold expandAnswerPathStore
    rw [hnr]
  · unfold expandIssuesRequest
    rw [hnr]
    rfl
  · unfold expandAnswerPathStore
    rw [hns]
    cases st2.nodes.find? (fun n => n.id = "root") <;> rfl
  · unfold expandIssuesRequest
    rw [hns]
    simp

/-- C8: the nodes appended by a successful `expandAnswerPath` are exactly one
    step/answer row plus a clarifier block anchored at the source position:
    steps occupy slots `0..k-1` and answers slots `k..`, all at
    `y = sy + branchDy` and `x = sx + branchOffsetX + slot * branchSpacingX`;
    the `i`-th of `n` clarifiers goes to the left column iff `i < ⌈n/2⌉`, at
    `y = sy + rowIdx * infoSpacingY + infoOffsetY` within its column. -/
theorem C8_layout_positions (st : Store) (nodeId userInput : String)
    (res : ExpandResult) (r s : GNode)
    (hr : st.nodes.find? (fun n => n.id = "root") = some r)
    (hs : st.nodes.find? (fun n => n.id = nodeId) = some s) :
    (∃ B A C : List Branch,
      B = res.branches.filter (fun b => b.id ∉ st.nodes.map (fun n => n.id)) ∧
      A = res.answers.filter (fun b => b.id ∉ st.nodes.map (fun n => n.id)) ∧
      C = res.clarifies.filter (fun c => c.id ∉
            (st.nodes.map (fun n => n.id) ++ B.map Branch.id ++ A.map Branch.id)) ∧
      (expandAnswerPathStore st nodeId userInput (.ok res)).nodes.drop st.nodes.length
        = placeRow s.position.x s.position.y "step" 0 B
          ++ placeRow s.position.x s.position.y "answer" B.length A
          ++ placeClarifies s.position.x s.position.y ((C.length + 1) / 2) 0 C) ∧
    (∀ (sx sy : ℚ) (ty : String) (k : Nat) (bs : List Branch) (i : Nat),
      i < bs.length →
      ∃ n, (placeRow sx sy ty k bs)[i]? = some n ∧
        n.position = ⟨sx + branchOffsetX + ((k + i : Nat) : ℚ) * branchSpacingX,
          sy + branchDy⟩ ∧
        n.data.nodeType = some ty) ∧
    (∀ (sx sy : ℚ) (cs : List Branch) (i : Nat), i < cs.length →
      ∃ n, (placeClarifies sx sy ((cs.length + 1) / 2) 0 cs)[i]? = some n ∧
        n.position = ⟨sx + (if i < (cs.length + 1) / 2 then -infoOffsetX else infoOffsetX),
          sy + (((if i < (cs.length + 1) / 2 then i else i - (cs.length + 1) / 2) : Nat) : ℚ)
            * infoSpacingY + infoOffsetY⟩ ∧
        n.data.nodeType = some "info") := by
  refine ⟨?_, ?_, ?_⟩
  · have hout : expandAnswerPathStore st nodeId userInput (.ok res)
        = expandCommit nodeId userInput res st := by
      unfold expandAnswerPathStore
      rw [hr, hs]
    rw [hout]
    simp only [expandCommit]
    rw [hs]
    simp only [pushNodesAwayFromExpansion, Option.map_some', Option.getD_some]
    have hids : (st.nodes.map (patchDetails nodeId userInput)).map (fun n => n.id)
        = st.nodes.map (fun n => n.id) := by
      rw [List.map_map]
      apply List.map_congr_left
      intro n _
      by_cases hid : n.id = nodeId <;> simp [patchDetails, hid]
    refine ⟨res.branches.filter (fun b => b.id ∉ st.nodes.map (fun n => n.id)),
      res.answers.filter (fun b => b.id ∉ st.nodes.map (fun n => n.id)),
      res.clarifies.filter (fun c => c.id ∉
        (st.nodes.map (fun n => n.id)
          ++ (res.branches.filter (fun b => b.id ∉ st.nodes.map (fun n => n.id))).map
              Branch.id
          ++ (res.answers.filter (fun b => b.id ∉ st.nodes.map (fun n => n.id))).map
              Branch.id)),
      rfl, rfl, rfl, ?_⟩
    rw [show ∀ a b c d : List GNode, a ++ b ++ c ++ d = a ++ (b ++ c ++ d) from
      fun a b c d => by simp [List.append_assoc]]
    rw [List.drop_left' (by simp)]
    rw [hids]
    simp only [placeRow_map_id, placeRow_length]
  · intro sx sy ty k bs i hi
    refine ⟨mkRowNode sx sy ty (k + i) bs[i], ?_, rfl, rfl⟩
    rw [placeRow_getElem?, List.getElem?_eq_getElem hi]
    rfl
  · intro sx sy cs i hi
    refine ⟨mkClarNode sx sy ((cs.length + 1) / 2) i cs[i], ?_, ?_, rfl⟩
    · rw [placeClarifies_getElem?, List.getElem?_eq_getElem hi]
      simp
    · rfl

theorem Pos_ext_iff (p q : Pos) : p = q ↔ p.x = q.x ∧ p.y = q.y := by
  cases p
  cases q
  simp

/-- Overlap of the node's assumed box with the region along the x axis. -/
def overlapsX (r : Region) (n : GNode) : Prop :=
  n.position.x + nodeWidth - r.minX > 0 ∧ r.maxX - n.position.x > 0

/-- Overlap of the node's assumed box with the region along the y axis. -/
def overlapsY (r : Region) (n : GNode) : Prop :=
  n.position.y + nodeHeight - r.minY > 0 ∧ r.maxY - n.position.y > 0

/-- Bounding-box intersection as the claim describes it: strict overlap on
    both axes simultaneously. -/
def nodeBoxIntersects (r : Region) (n : GNode) : Prop :=
  overlapsX r n ∧ overlapsY r n

instance (r : Region) (n : GNode) : Decidable (overlapsX r n) := by
  unfold overlapsX
  infer_instance

instance (r : Region) (n : GNode) : Decidable (overlapsY r n) := by
  unfold overlapsY
  infer_instance

instance (r : Region) (n : GNode) : Decidable (nodeBoxIntersects r n) := by
  unfold nodeBoxIntersects
  infer_instance

/-- A freshly placed node at the origin. -/
def c9ExpansionNode : GNode :=
  { id := "new1", position := { x := 0, y := 0 }, data := { label := "new" } }

/-- A pre-existing node horizontally inside the region's x-range but far
    below it: its box does not intersect the region. -/
def c9FarNode : GNode :=
  { id := "old1", position := { x := 0, y := 1000 }, data := { label := "old" } }

/-- C9 counterexample: `c9FarNode`'s box does not intersect the expansion
    region (no y overlap), yet the one-shot pass displaces it, because the
    code moves a node when it overlaps on either axis, not only when the
    boxes intersect. -/
theorem C9_counterexample :
    ¬ nodeBoxIntersects (expansionRegion [c9ExpansionNode]) c9FarNode ∧
    (pushNodesAwayFromExpansion [c9FarNode] [c9ExpansionNode] []).map (fun m => m.position)
      ≠ [c9FarNode.position] := by
  constructor
  · unfold nodeBoxIntersects overlapsX overlapsY expansionRegion rminList rmaxList
      c9ExpansionNode c9FarNode nodeWidth nodeHeight expansionPadding
    norm_num
  · unfold pushNodesAwayFromExpansion pushOne expansionRegion rminList rmaxList
      c9ExpansionNode c9FarNode nodeWidth nodeHeight expansionPadding
    norm_num

/-- C9 amended: the one-shot pass maps every pre-existing node through
    `pushOne`; a non-excluded node keeps its exact position iff its box
    overlaps the region on neither axis (a per-axis test, weaker than box
    intersection); on each overlapping axis the node is pushed away from the
    region's center to sit flush against the region boundary, and each
    non-overlapping axis coordinate is unchanged. -/
theorem C9_push_characterization (r : Region) (excl : List String) (n : GNode)
    (hn : n.id ∉ excl) :
    ((pushOne r excl n).position = n.position ↔
        ¬ overlapsX r n ∧ ¬ overlapsY r n) ∧
    (¬ overlapsX r n → (pushOne r excl n).position.x = n.position.x) ∧
    (¬ overlapsY r n → (pushOne r excl n).position.y = n.position.y) ∧
    (overlapsX r n → n.position.x < (r.minX + r.maxX) / 2 →
        (pushOne r excl n).position.x = r.minX - nodeWidth) ∧
    (overlapsX r n → ¬ n.position.x < (r.minX + r.maxX) / 2 →
        (pushOne r excl n).position.x = r.maxX) ∧
    (overlapsY r n → n.position.y < (r.minY + r.maxY) / 2 →
        (pushOne r excl n).position.y = r.minY - nodeHeight) ∧
    (overlapsY r n → ¬ n.position.y < (r.minY + r.maxY) / 2 →
        (pushOne r excl n).position.y = r.maxY) ∧
    (∀ existing expNodes, expNodes ≠ [] →
        pushNodesAwayFromExpansion existing expNodes excl
          = existing.map (pushOne (expansionRegion expNodes) excl)) := by
  have hpush : pushOne r excl n =
      (if ¬ overlapsX r n ∧ ¬ overlapsY r n then n else
        { n with position :=
          { x := n.position.x + (if overlapsX r n then
              (if n.position.x < (r.minX + r.maxX) / 2
               then -(n.position.x + nodeWidth - r.minX)
               else r.maxX - n.position.x) else 0),
            y := n.position.y + (if overlapsY r n then
              (if n.position.y < (r.minY + r.maxY) / 2
               then -(n.position.y + nodeHeight - r.minY)
               else r.maxY - n.position.y) else 0) } }) := by
    unfold pushOne overlapsX overlapsY
    rw [if_neg hn]
  refine ⟨?_, ?_, ?_, ?_, ?_, ?_, ?_, ?_⟩
  · rw [hpush]
    by_cases hX : overlapsX r n <;> by_cases hY : overlapsY r n
    · rw [if_neg (by simp [hX, hY]), if_pos hX, if_pos hY, Pos_ext_iff]
      dsimp only
      constructor
      · rintro ⟨hx, -⟩
        exfalso
        obtain ⟨h1, h2⟩ := hX
        by_cases hc : n.position.x < (r.minX + r.maxX) / 2
        · rw [if_pos hc] at hx
          linarith
        · rw [if_neg hc] at hx
          linarith
      · rintro ⟨hnX, -⟩
        exact absurd hX hnX
    · rw [if_neg (by simp [hX]), if_pos hX, if_neg hY, Pos_ext_iff]
      dsimp only
      constructor
      · rintro ⟨hx, -⟩
        exfalso
        obtain ⟨h1, h2⟩ := hX
        by_cases hc : n.position.x < (r.minX + r.maxX) / 2
        · rw [if_pos hc] at hx
          linarith
        · rw [if_neg hc] at hx
          linarith
      · rintro ⟨hnX, -⟩
        exact absurd hX hnX
    · rw [if_neg (by simp [hY]), if_neg hX, if_pos hY, Pos_ext_iff]
      dsimp only
      constructor
      · rintro ⟨-, hy⟩
        exfalso
        obtain ⟨h1, h2⟩ := hY
        by_cases hc : n.position.y < (r.minY + r.maxY) / 2
        · rw [if_pos hc] at hy
          linarith
        · rw [if_neg hc] at hy
          linarith
      · rintro ⟨-, hnY⟩
        exact absurd hY hnY
    · rw [if_pos ⟨hX, hY⟩]
      simp [hX, hY]
  · intro hX
    rw [hpush]
    by_cases hY : overlapsY r n
    · rw [if_neg (by simp [hY]), if_neg hX]
      dsimp only
      ring
    · rw [if_pos ⟨hX, hY⟩]
  · intro hY
    rw [hpush]
    by_cases hX : overlapsX r n
    · rw [if_neg (by simp [hX]), if_neg hY]
      dsimp only
      ring
    · rw [if_pos ⟨hX, hY⟩]
  · intro hX hc
    rw [hpush, if_neg (by simp [hX]), if_pos hX, if_pos hc]
    dsimp only
    ring
  · intro hX hc
    rw [hpush, if_neg (by simp [hX]), if_pos hX, if_neg hc]
    dsimp only
    ring
  · intro hY hc
    rw [hpush, if_neg (by simp [hY]), if_pos hY, if_pos hc]
    dsimp only
    ring
  · intro hY hc
    rw [hpush, if_neg (by simp [hY]), if_pos hY, if_neg hc]
    dsimp only
    ring
  · intro existing expNodes hne
    unfold pushNodesAwayFromExpansion
    cases expNodes with
    | nil => exact absurd rfl hne
    | cons e es => rfl

/-! ### Concrete witnesses -/

/-- A sample root node. -/
def wRoot : GNode := mkRootNode "Trip"

/-- A sample step node. -/
def wStep : GNode :=
  { id := "n1", position := { x := 10, y := 20 },
    data := { label := "Pick dates", nodeType := some "step" } }

/-- A sample session store holding the root and one step child. -/
def wStore : Store :=
  { nodes := [wRoot, wStep],
    edges := [{ id := "e-root-n1", source := "root", target := "n1", linkType := "post" }],
    promptLoading := false, selectedNodeId := none }

/-- A sample session store without a root node. -/
def wNoRootStore : Store :=
  { nodes := [wStep], edges := [], promptLoading := false, selectedNodeId := none }

/-- A sample clarify-reprompt parse result. -/
def wClarifyRes : ClarifyResult :=
  { title := "Refined", content := some "ctx",
    branches := [{ id := "root-step-1", label := "A" }],
    answers := [{ id := "root-ans-1", label := "B" }],
    clarifies := [{ id := "root-clar-1", label := "Q" }] }

/-- A sample answer-path parse result. -/
def wExpandRes : ExpandResult :=
  { branches := [{ id := "n1-step-1", label := "A" }],
    answers := [{ id := "n1-ans-1", label := "B" }],
    clarifies := [{ id := "n1-clar-1", label := "Q" }] }

set_option maxRecDepth 100000 in
theorem C5_legacy_answer_fallback_witness :
    extractTag "step" ("<answer>one</answer><answer>two</answer>" : String).toList = [] ∧
    extractTag "answer" ("<answer>one</answer><answer>two</answer>" : String).toList ≠ [] ∧
    (parseExpand "<answer>one</answer><answer>two</answer>" "n").answers = [] :=
  ⟨by decide, by decide,
    (C5_legacy_answer_fallback "<answer>one</answer><answer>two</answer>" "n"
      (by decide) (by decide)).2⟩

set_option maxRecDepth 100000 in
theorem C7_label_fallback_rule_witness :
    ({ id := "n-step-1", label := "XC", content := some "C" } : Branch)
        ∈ parseTagBranches "<step>X<content>C</content></step>" "step" "n-step" ∧
    (∃ body ∈ extractTag "step" ("<step>X<content>C</content></step>" : String).toList,
      trimL body ≠ [] ∧
      ({ id := "n-step-1", label := "XC", content := some "C" } : Branch).label
        = String.mk (labelOf (trimL body)) ∧
      (∀ t, execTagCI "title" (trimL body) = some t →
        labelOf (trimL body) = jsOrL (trimL t) (trimL body)) ∧
      (execTagCI "title" (trimL body) = none →
        labelOf (trimL body) = jsOrL (trimL (stripTags (trimL body))) (trimL body))) :=
  ⟨by decide,
    C7_label_fallback_rule "<step>X<content>C</content></step>" "step" "n-step"
      { id := "n-step-1", label := "XC", content := some "C" } (by decide)⟩

theorem C2_destructive_replace_witness :
    wStore.nodes.find? (fun n => n.id = "root") = some wRoot ∧
    (repromptRootStore wStore (.ok wClarifyRes)).nodes.length
      = 1 + (wClarifyRes.branches.length + wClarifyRes.answers.length
          + wClarifyRes.clarifies.length) :=
  ⟨rfl, (C2_destructive_replace wStore wRoot wClarifyRes rfl).1⟩

theorem C3_additive_expansion_witness :
    wStore.nodes.find? (fun n => n.id = "root") = some wRoot ∧
    wStore.nodes.find? (fun n => n.id = "n1") = some wStep ∧
    ∃ n' ∈ (expandAnswerPathStore wStore "n1" "my input" (.ok wExpandRes)).nodes,
      n'.id = "n1" ∧ n'.data.details = some "my input" :=
  ⟨rfl, rfl,
    (C3_additive_expansion wStore "n1" "my input" wExpandRes wRoot wStep rfl rfl).2.2.2⟩

theorem C4_error_is_atomic_witness :
    (wStore.nodes.find? (fun n => n.id = "root")).isSome = true ∧
    (wStore.nodes.find? (fun n => n.id = "n1")).isSome = true ∧
    wNoRootStore.nodes.any (fun n => n.id = "root") = false ∧
    (repromptRootStore wStore (.error ())).promptLoading = false :=
  ⟨rfl, rfl, rfl,
    (C4_error_is_atomic wStore wNoRootStore "Label" "n1" "inp" rfl rfl rfl).1.2.2⟩

theorem C10_guard_noops_witness :
    wNoRootStore.nodes.find? (fun n => n.id = "root") = none ∧
    wStore.nodes.find? (fun n => n.id = "zz") = none ∧
    repromptIssuesRequest wNoRootStore = false :=
  ⟨rfl, rfl,
    (C10_guard_noops wNoRootStore wStore "n1" "zz" "a" "b"
      (.error ()) (.error ()) (.error ()) rfl rfl).2.1⟩

theorem C8_layout_positions_witness :
    wStore.nodes.find? (fun n => n.id = "root") = some wRoot ∧
    wStore.nodes.find? (fun n => n.id = "n1") = some wStep ∧
    (∀ (sx sy : ℚ) (ty : String) (k : Nat) (bs : List Branch) (i : Nat),
      i < bs.length →
      ∃ n, (placeRow sx sy ty k bs)[i]? = some n ∧
        n.position = ⟨sx + branchOffsetX + ((k + i : Nat) : ℚ) * branchSpacingX,
          sy + branchDy⟩ ∧
        n.data.nodeType = some ty) :=
  ⟨rfl, rfl, (C8_layout_positions wStore "n1" "inp" wExpandRes wRoot wStep rfl rfl).2.1⟩

theorem C9_push_characterization_witness :
    c9FarNode.id ∉ ([] : List String) ∧
    ((pushOne (expansionRegion [c9ExpansionNode]) [] c9FarNode).position
        = c9FarNode.position ↔
      ¬ overlapsX (expansionRegion [c9ExpansionNode]) c9FarNode ∧
      ¬ overlapsY (expansionRegion [c9ExpansionNode]) c9FarNode) :=
  ⟨by decide,
    (C9_push_characterization (expansionRegion [c9ExpansionNode]) [] c9FarNode
      (by decide)).1⟩

end LlmGui
